import Mathlib

/-!
Verification of the timestamp-extraction and moment-aggregation core of the
`das` repository (src/das.py and src/das-mainpage.py).

The Python code is shallowly embedded: strings become `List Char`, pandas
data frames become `List Row`, the insertion-ordered `defaultdict` becomes an
association list in insertion order, and Python's stable sorts become stable
insertion sorts (two stable sorts with the same key compute the same list).
`pandas.sort_values` (whose tie order is implementation-defined) is modelled
as a stable sort by the timestamp key.
-/

namespace Das

open scoped List

/-! ## Timestamp extractor (`parse_timestamp`, src/das.py lines 185-206,
identical in src/das-mainpage.py lines 163-184).

The regex is `(\d{1,2}:)?\d{1,2}:\d{2}`, searched with `re.search`
(leftmost match, Python backtracking preference: greedy quantifiers first).
`\d` is modelled as the ASCII digits `0`-`9` via `Char.isDigit`. -/

/-- Match `\d{1,2}:\d{2}` at the head of `s`, returning the matched
characters.  The greedy two-digit minutes alternative is tried first; when it
fails no backtracking to one digit can succeed (the one-digit alternative
would need the second digit to be a colon), so the branches are disjoint. -/
def matchMS (s : List Char) : Option (List Char) :=
  match s with
  | a :: b :: rest =>
    if a.isDigit && b.isDigit then
      match rest with
      | c :: d :: e :: _ =>
        if c == ':' && d.isDigit && e.isDigit then some [a, b, c, d, e] else none
      | _ => none
    else if a.isDigit && b == ':' then
      match rest with
      | d :: e :: _ => if d.isDigit && e.isDigit then some [a, b, d, e] else none
      | _ => none
    else none
  | _ => none

/-- Match `(\d{1,2}:)?\d{1,2}:\d{2}` at the head of `s`, in Python's
backtracking order: optional group with two digits, then with one digit,
then group absent.  When the group consumes two digits the one-digit retry
would need the second digit to be a colon, which is impossible, so the retry
collapses to the group-absent case. -/
def matchTimestampAt (s : List Char) : Option (List Char) :=
  match s with
  | a :: b :: c :: rest =>
    if a.isDigit && b.isDigit && c == ':' then
      match matchMS rest with
      | some m => some (a :: b :: c :: m)
      | none => matchMS s
    else if a.isDigit && b == ':' then
      match matchMS (c :: rest) with
      | some m => some (a :: b :: m)
      | none => matchMS s
    else matchMS s
  | _ => matchMS s

/-- `re.search`: the match at the leftmost position where one exists. -/
def searchTimestamp : List Char → Option (List Char)
  | [] => none
  | a :: rest =>
    match matchTimestampAt (a :: rest) with
    | some m => some m
    | none => searchTimestamp rest

/-- Python `str.split(':')`. -/
def splitColon : List Char → List (List Char)
  | [] => [[]]
  | c :: rest =>
    if c == ':' then [] :: splitColon rest
    else
      match splitColon rest with
      | p :: ps => (c :: p) :: ps
      | [] => [[c]]

def digitVal (c : Char) : Nat := c.toNat - 48

def digitsToNat (s : List Char) : Nat :=
  s.foldl (fun acc c => acc * 10 + digitVal c) 0

/-- Python `int(str)` on a matched group: succeeds on a nonempty all-digit
string, raises (modelled as `none`) otherwise. -/
def toInt? (s : List Char) : Option Nat :=
  if s.all (fun c => c.isDigit) && !s.isEmpty then some (digitsToNat s) else none

/-- The conversion step of `parse_timestamp` (src/das.py lines 195-202):
two fields are minutes, seconds; the `else` arm unpacks three fields as
hours, minutes, seconds.  Any failure of the unpacking or of the `int`
conversion raises and is caught by the enclosing `try`/`except`, yielding
`None`. -/
def convertParts (parts : List (List Char)) : Option Nat :=
  match parts with
  | [p1, p2] =>
    match toInt? p1, toInt? p2 with
    | some minutes, some seconds => some (minutes * 60 + seconds)
    | _, _ => none
  | [p1, p2, p3] =>
    match toInt? p1, toInt? p2, toInt? p3 with
    | some hours, some minutes, some seconds =>
      some (hours * 3600 + minutes * 60 + seconds)
    | _, _, _ => none
  | _ => none

/-- `parse_timestamp` from src/das.py lines 185-206: search for the first
timestamp-like substring, split it on colons and convert to seconds. -/
def parse_timestamp (text : List Char) : Option Nat :=
  match searchTimestamp text with
  | none => none
  | some m => convertParts (splitColon m)

example : parse_timestamp ("great scene at 1:05:30".toList) = some 3930 := by decide
example : parse_timestamp ("lol at 2:15".toList) = some 135 := by decide
example : parse_timestamp ("no timestamp here".toList) = none := by decide
example : parse_timestamp ("90:99".toList) = some 5499 := by decide
example : parse_timestamp ("12:34".toList) = some 754 := by decide

/-! ## Data model

A raw comment record as fetched (`get_comments` builds rows with `text`,
`authorDisplayName`, `likeCount`, `publishedAt`); `process_video` /
`show_video_analysis` then add a `timestamp` column via
`comments_df['text'].apply(parse_timestamp)` (src/das.py line 717). -/

structure Comment where
  text : List Char
  authorDisplayName : List Char
  likeCount : Nat
  publishedAt : List Char
deriving DecidableEq, Repr

/-- A data-frame row after the `timestamp` column has been added. -/
structure Row where
  text : List Char
  authorDisplayName : List Char
  likeCount : Nat
  publishedAt : List Char
  timestamp : Option Nat
deriving DecidableEq, Repr

/-- `comments_df['timestamp'] = comments_df['text'].apply(parse_timestamp)`. -/
def setTimestamp (c : Comment) : Row :=
  { text := c.text, authorDisplayName := c.authorDisplayName,
    likeCount := c.likeCount, publishedAt := c.publishedAt,
    timestamp := parse_timestamp c.text }

def addTimestamps (df : List Comment) : List Row := df.map setTimestamp

/-- One entry of the `timeline_data` defaultdict:
`{'comments': [...], 'total_likes': n, 'representative_time': t}`. -/
structure Moment where
  comments : List Row
  total_likes : Nat
  representative_time : Nat
deriving DecidableEq, Repr

/-- The defaultdict's default factory value. -/
def emptyMoment : Moment :=
  { comments := [], total_likes := 0, representative_time := 0 }

/-- The insertion-ordered dict `timeline_data`, as an association list in
insertion order. -/
abbrev Timeline := List (Nat × Moment)

/-! ## Sorting primitives

Python's `list.sort` / `sorted` are stable; stable sorts by a fixed key are
unique, so each is embedded as a stable insertion sort. -/

/-- The value of the `timestamp` column of a row that survived the
`notna()` filter. -/
def tsKey (r : Row) : Nat := r.timestamp.getD 0

/-- Stable ascending insertion by timestamp: the inserted element arrived
before the already-sorted tail, so on ties it stays in front. -/
def insertByTs (r : Row) : List Row → List Row
  | [] => [r]
  | x :: xs => if tsKey r ≤ tsKey x then r :: x :: xs else x :: insertByTs r xs

/-- `timestamp_comments.sort_values('timestamp')`, modelled as a stable sort. -/
def sortByTs (l : List Row) : List Row := l.foldr insertByTs []

/-- Stable descending insertion by `likeCount`: on ties the earlier element
stays in front. -/
def insertByLikes (r : Row) : List Row → List Row
  | [] => [r]
  | x :: xs =>
    if x.likeCount ≤ r.likeCount then r :: x :: xs else x :: insertByLikes r xs

/-- `comments.sort(key=lambda x: x['likeCount'], reverse=True)` (stable). -/
def sortByLikesDesc (l : List Row) : List Row := l.foldr insertByLikes []

/-! ## Moment aggregation (`aggregate_timeline_comments`) -/

/-- `abs(timestamp - current_group)` on non-negative offsets. -/
def absDiff (a b : Nat) : Nat := if a ≤ b then b - a else a - b

/-- The anchor update of the sorted walk:
`if current_group is None or abs(timestamp - current_group) > 5:
current_group = timestamp` — the key the incoming row is filed under. -/
def stepAnchor (anchor : Option Nat) (t : Nat) : Nat :=
  match anchor with
  | none => t
  | some a => if 5 < absDiff t a then t else a

/-- One row's effect on a dict entry: append the row, add its likes, set the
representative time; `sortGroup` is the in-loop member sort (the stable
descending likeCount sort in src/das.py, the identity in
src/das-mainpage.py). -/
def updateMoment (sortGroup : List Row → List Row) (m : Moment) (k : Nat)
    (r : Row) : Moment :=
  { comments := sortGroup (m.comments ++ [r]),
    total_likes := m.total_likes + r.likeCount,
    representative_time := k }

/-- `timeline_data[current_group]` on the insertion-ordered defaultdict:
update the entry in place when the key exists, otherwise append a fresh
default entry at the end. -/
def updateTimeline (sortGroup : List Row → List Row) (data : Timeline)
    (k : Nat) (r : Row) : Timeline :=
  match data with
  | [] => [(k, updateMoment sortGroup emptyMoment k r)]
  | (a, m) :: rest =>
    if a = k then (a, updateMoment sortGroup m k r) :: rest
    else (a, m) :: updateTimeline sortGroup rest k r

/-- The `for _, row in timestamp_comments.iterrows():` loop. -/
def walk (sortGroup : List Row → List Row) :
    List Row → Option Nat → Timeline → Timeline
  | [], _, data => data
  | r :: rs, anchor, data =>
    walk sortGroup rs (some (stepAnchor anchor (tsKey r)))
      (updateTimeline sortGroup data (stepAnchor anchor (tsKey r)) r)

/-- Common shape of the two `aggregate_timeline_comments` implementations:
filter rows with a timestamp, return the empty dict when none remain,
otherwise sort by timestamp and run the anchor walk. -/
def aggregateWith (sortGroup : List Row → List Row) (df : List Row) :
    Timeline :=
  let tsc := df.filter (fun r => r.timestamp.isSome)
  if tsc.length = 0 then []
  else walk sortGroup (sortByTs tsc) none []

/-- `aggregate_timeline_comments` from src/das.py lines 216-248: each
iteration re-sorts the touched group's comments by descending likeCount. -/
def aggregate_timeline_comments (df : List Row) : Timeline :=
  aggregateWith sortByLikesDesc df

/-- `aggregate_timeline_comments` from src/das-mainpage.py lines 194-220:
identical except that group members are never re-sorted (they stay in
timestamp-walk order). -/
def aggregate_mainpage (df : List Row) : Timeline :=
  aggregateWith (fun l => l) df

/-! ## Top-N presentation view

`sorted(timeline_data.items(), key=lambda x: x[1]['total_likes'],
reverse=True)[:10]` — src/das.py lines 774-776 (`display_timeline_moments`)
and src/das-mainpage.py lines 842-844 (`process_video`).  Python's sort is
stable also with `reverse=True`, so ties keep dict insertion order. -/

def insertByTotalLikes (p : Nat × Moment) :
    List (Nat × Moment) → List (Nat × Moment)
  | [] => [p]
  | q :: qs =>
    if q.2.total_likes ≤ p.2.total_likes then p :: q :: qs
    else q :: insertByTotalLikes p qs

def sortByTotalLikesDesc (l : Timeline) : Timeline :=
  l.foldr insertByTotalLikes []

def topMoments (data : Timeline) : Timeline :=
  (sortByTotalLikesDesc data).take 10

/-! ### Concrete sanity checks of the aggregation pipeline -/

def mkComment (text : List Char) (likes : Nat) : Comment :=
  { text := text, authorDisplayName := [], likeCount := likes,
    publishedAt := [] }

example :
    (aggregate_timeline_comments (addTimestamps
      [mkComment ("at 0:00".toList) 3, mkComment ("at 0:04".toList) 1,
       mkComment ("at 0:08".toList) 2, mkComment ("at 0:12".toList) 5])).map
      Prod.fst = [0, 8] := by decide

example :
    (aggregate_timeline_comments (addTimestamps
      [mkComment ("0:00".toList) 3, mkComment ("0:04".toList) 1,
       mkComment ("0:11".toList) 2])).map Prod.fst = [0, 11] := by decide

/-! ## Lemmas about the sorting primitives -/

theorem insertByTs_perm (r : Row) (l : List Row) :
    insertByTs r l ~ r :: l := by
  induction l with
  | nil => simp [insertByTs]
  | cons x xs ih =>
    unfold insertByTs
    split
    · exact List.Perm.refl _
    · exact ((ih.cons x).trans (List.Perm.swap r x xs))

theorem sortByTs_perm (l : List Row) : sortByTs l ~ l := by
  induction l with
  | nil => simp [sortByTs]
  | cons x xs ih =>
    simpa [sortByTs] using ((insertByTs_perm x (sortByTs xs)).trans (ih.cons x))

theorem insertByTs_sorted (r : Row) (l : List Row)
    (h : l.Pairwise (fun a b => tsKey a ≤ tsKey b)) :
    (insertByTs r l).Pairwise (fun a b => tsKey a ≤ tsKey b) := by
  induction l with
  | nil => simp [insertByTs]
  | cons x xs ih =>
    rcases List.pairwise_cons.mp h with ⟨hx, hxs⟩
    by_cases hle : tsKey r ≤ tsKey x
    · rw [show insertByTs r (x :: xs) = r :: x :: xs by simp [insertByTs, hle]]
      refine List.pairwise_cons.mpr ⟨?_, h⟩
      intro b hb
      rcases List.mem_cons.mp hb with rfl | hb2
      · exact hle
      · have := hx b hb2; omega
    · rw [show insertByTs r (x :: xs) = x :: insertByTs r xs by
        simp [insertByTs, hle]]
      refine List.pairwise_cons.mpr ⟨?_, ih hxs⟩
      intro b hb
      rcases List.mem_cons.mp ((insertByTs_perm r xs).mem_iff.mp hb) with
        rfl | hb2
      · omega
      · exact hx b hb2

theorem sortByTs_sorted (l : List Row) :
    (sortByTs l).Pairwise (fun a b => tsKey a ≤ tsKey b) := by
  induction l with
  | nil => simp [sortByTs]
  | cons x xs ih => exact insertByTs_sorted x (sortByTs xs) ih

theorem insertByLikes_perm (r : Row) (l : List Row) :
    insertByLikes r l ~ r :: l := by
  induction l with
  | nil => simp [insertByLikes]
  | cons x xs ih =>
    unfold insertByLikes
    split
    · exact List.Perm.refl _
    · exact ((ih.cons x).trans (List.Perm.swap r x xs))

theorem sortByLikesDesc_perm (l : List Row) : sortByLikesDesc l ~ l := by
  induction l with
  | nil => simp [sortByLikesDesc]
  | cons x xs ih =>
    simpa [sortByLikesDesc] using
      ((insertByLikes_perm x (sortByLikesDesc xs)).trans (ih.cons x))

theorem insertByLikes_sorted (r : Row) (l : List Row)
    (h : l.Pairwise (fun a b => b.likeCount ≤ a.likeCount)) :
    (insertByLikes r l).Pairwise (fun a b => b.likeCount ≤ a.likeCount) := by
  induction l with
  | nil => simp [insertByLikes]
  | cons x xs ih =>
    rcases List.pairwise_cons.mp h with ⟨hx, hxs⟩
    by_cases hle : x.likeCount ≤ r.likeCount
    · rw [show insertByLikes r (x :: xs) = r :: x :: xs by
        simp [insertByLikes, hle]]
      refine List.pairwise_cons.mpr ⟨?_, h⟩
      intro b hb
      rcases List.mem_cons.mp hb with rfl | hb2
      · exact hle
      · have := hx b hb2; omega
    · rw [show insertByLikes r (x :: xs) = x :: insertByLikes r xs by
        simp [insertByLikes, hle]]
      refine List.pairwise_cons.mpr ⟨?_, ih hxs⟩
      intro b hb
      rcases List.mem_cons.mp ((insertByLikes_perm r xs).mem_iff.mp hb) with
        rfl | hb2
      · omega
      · exact hx b hb2

theorem sortByLikesDesc_sorted (l : List Row) :
    (sortByLikesDesc l).Pairwise (fun a b => b.likeCount ≤ a.likeCount) := by
  induction l with
  | nil => simp [sortByLikesDesc]
  | cons x xs ih => exact insertByLikes_sorted x (sortByLikesDesc xs) ih

/-- A list already sorted descending by likeCount is a fixed point of the
stable sort. -/
theorem sortByLikesDesc_of_sorted (l : List Row)
    (h : l.Pairwise (fun a b => b.likeCount ≤ a.likeCount)) :
    sortByLikesDesc l = l := by
  induction l with
  | nil => simp [sortByLikesDesc]
  | cons x xs ih =>
    rcases List.pairwise_cons.mp h with ⟨hx, hxs⟩
    have hxs' : sortByLikesDesc xs = xs := ih hxs
    show insertByLikes x (sortByLikesDesc xs) = x :: xs
    rw [hxs']
    cases xs with
    | nil => simp [insertByLikes]
    | cons y ys =>
      have : y.likeCount ≤ x.likeCount := hx y (by simp)
      simp [insertByLikes, this]

theorem sortByLikesDesc_idem (l : List Row) :
    sortByLikesDesc (sortByLikesDesc l) = sortByLikesDesc l :=
  sortByLikesDesc_of_sorted _ (sortByLikesDesc_sorted l)

/-- Insertion after all elements of equal likeCount: the position an element
appended at the end of the input takes in the stable descending sort. -/
def insAfterLikes (r : Row) : List Row → List Row
  | [] => [r]
  | x :: xs =>
    if x.likeCount < r.likeCount then r :: x :: xs else x :: insAfterLikes r xs

theorem insertByLikes_insAfterLikes (x r : Row) (s : List Row) :
    insertByLikes x (insAfterLikes r s) = insAfterLikes r (insertByLikes x s) := by
  induction s with
  | nil =>
    simp only [insAfterLikes, insertByLikes]
    by_cases h : r.likeCount ≤ x.likeCount
    · rw [if_pos h, if_neg (by omega)]
    · rw [if_neg h, if_pos (by omega)]
  | cons y ys ih =>
    by_cases hyr : y.likeCount < r.likeCount
    · by_cases hrx : r.likeCount ≤ x.likeCount
      · have hyx : y.likeCount ≤ x.likeCount := by omega
        have hxr : ¬ x.likeCount < r.likeCount := by omega
        simp [insAfterLikes, insertByLikes, hyr, hrx, hyx, hxr]
      · by_cases hyx : y.likeCount ≤ x.likeCount
        · have hxr : x.likeCount < r.likeCount := by omega
          simp [insAfterLikes, insertByLikes, hyr, hrx, hyx, hxr]
        · have hxr : x.likeCount < r.likeCount := by omega
          simp [insAfterLikes, insertByLikes, hyr, hrx, hyx, hxr]
    · by_cases hyx : y.likeCount ≤ x.likeCount
      · have hxr : ¬ x.likeCount < r.likeCount := by omega
        simp [insAfterLikes, insertByLikes, hyr, hyx, hxr]
      · simp [insAfterLikes, insertByLikes, hyr, hyx, ih]

/-- Stable sort of a list with one element appended: the new element is
inserted after all equal keys of the sorted remainder. -/
theorem sortByLikesDesc_append_singleton (l : List Row) (r : Row) :
    sortByLikesDesc (l ++ [r]) = insAfterLikes r (sortByLikesDesc l) := by
  induction l with
  | nil => simp [sortByLikesDesc, insAfterLikes, insertByLikes]
  | cons x xs ih =>
    show insertByLikes x (sortByLikesDesc (xs ++ [r]))
        = insAfterLikes r (insertByLikes x (sortByLikesDesc xs))
    rw [ih, insertByLikes_insAfterLikes]

/-- Re-sorting an already sorted group after an append gives the same list as
sorting the raw insertion sequence: the loop's sort-every-iteration equals a
single final stable sort. -/
theorem sortByLikesDesc_absorb (l : List Row) (r : Row) :
    sortByLikesDesc (sortByLikesDesc l ++ [r]) = sortByLikesDesc (l ++ [r]) := by
  rw [sortByLikesDesc_append_singleton, sortByLikesDesc_append_singleton,
    sortByLikesDesc_idem]

/-- Stability of the descending sort, characterized by filters: comments of
any fixed likeCount keep their relative order. -/
theorem insertByLikes_filter (x : Row) (s : List Row) (v : Nat) :
    (insertByLikes x s).filter (fun y => y.likeCount == v) =
      if x.likeCount = v then
        x :: s.filter (fun y => y.likeCount == v)
      else s.filter (fun y => y.likeCount == v) := by
  induction s with
  | nil => simp [insertByLikes, List.filter_cons, beq_iff_eq]
  | cons y ys ih =>
    by_cases hyx : y.likeCount ≤ x.likeCount
    · rw [show insertByLikes x (y :: ys) = x :: y :: ys by
        simp [insertByLikes, hyx]]
      simp [List.filter_cons, beq_iff_eq]
    · rw [show insertByLikes x (y :: ys) = y :: insertByLikes x ys by
        simp [insertByLikes, hyx]]
      by_cases hx : x.likeCount = v
      · have hy : ¬ y.likeCount = v := by omega
        simp [List.filter_cons, beq_iff_eq, ih, hx, hy]
      · by_cases hy : y.likeCount = v
        · simp [List.filter_cons, beq_iff_eq, ih, hx, hy]
        · simp [List.filter_cons, beq_iff_eq, ih, hx, hy]

theorem sortByLikesDesc_filter (l : List Row) (v : Nat) :
    (sortByLikesDesc l).filter (fun y => y.likeCount == v) =
      l.filter (fun y => y.likeCount == v) := by
  induction l with
  | nil => simp [sortByLikesDesc]
  | cons x xs ih =>
    show (insertByLikes x (sortByLikesDesc xs)).filter _ = _
    rw [insertByLikes_filter]
    by_cases hx : x.likeCount = v
    · simp [List.filter_cons, beq_iff_eq, hx, ih]
    · simp [List.filter_cons, beq_iff_eq, hx, ih]

/-! ## Invariants of the aggregation walk -/

/-- The dict's key list in insertion order. -/
def keys (data : Timeline) : List Nat := data.map Prod.fst

/-- All member comments of all moments, in dict-and-member order. -/
def joinComments (data : Timeline) : List Row :=
  (data.map (fun p => p.2.comments)).flatten

theorem joinComments_cons (q : Nat × Moment) (rest : Timeline) :
    joinComments (q :: rest) = q.2.comments ++ joinComments rest := by
  simp [joinComments]

theorem keys_cons (q : Nat × Moment) (rest : Timeline) :
    keys (q :: rest) = q.1 :: keys rest := by
  simp [keys]

theorem absDiff_of_le {a t : Nat} (h : a ≤ t) : absDiff t a = t - a := by
  simp only [absDiff]
  split_ifs with h2
  · omega
  · rfl

/-- The incoming offset is always within 5 of the key it is filed under. -/
theorem stepAnchor_close (anchor : Option Nat) (t : Nat) :
    absDiff t (stepAnchor anchor t) ≤ 5 := by
  cases anchor with
  | none => simp [stepAnchor, absDiff]
  | some a =>
    simp only [stepAnchor]
    split_ifs with h
    · simp [absDiff]
    · omega

theorem updateTimeline_keys_mem (g : List Row → List Row) (data : Timeline)
    (k : Nat) (r : Row) (hk : k ∈ keys data) :
    keys (updateTimeline g data k r) = keys data := by
  induction data with
  | nil => simp [keys] at hk
  | cons q rest ih =>
    obtain ⟨a, m⟩ := q
    by_cases hak : a = k
    · subst hak
      rw [show updateTimeline g ((a, m) :: rest) a r =
        (a, updateMoment g m a r) :: rest by simp [updateTimeline]]
      rw [keys_cons, keys_cons]
    · rw [show updateTimeline g ((a, m) :: rest) k r =
        (a, m) :: updateTimeline g rest k r by simp [updateTimeline, hak]]
      have hk' : k ∈ keys rest := by
        rw [keys_cons] at hk
        rcases List.mem_cons.mp hk with h | h
        · exact (hak h.symm).elim
        · exact h
      rw [keys_cons, keys_cons, ih hk']

theorem updateTimeline_fresh (g : List Row → List Row) (data : Timeline)
    (k : Nat) (r : Row) (hk : k ∉ keys data) :
    updateTimeline g data k r =
      data ++ [(k, updateMoment g emptyMoment k r)] := by
  induction data with
  | nil => simp [updateTimeline]
  | cons q rest ih =>
    obtain ⟨a, m⟩ := q
    have hak : ¬ a = k := by
      intro h
      exact hk (by simp [keys, h])
    rw [show updateTimeline g ((a, m) :: rest) k r =
      (a, m) :: updateTimeline g rest k r by simp [updateTimeline, hak]]
    have hk' : k ∉ keys rest := fun h => hk (by simp [keys] at h ⊢; tauto)
    rw [ih hk']
    simp

/-- Filing a row under key `k` appends it to exactly the entry with key `k`
and touches no other member list. -/
theorem updateTimeline_join (g : List Row → List Row)
    (hg : ∀ l, List.Perm (g l) l) (data : Timeline) (k : Nat) (r : Row) :
    List.Perm (joinComments (updateTimeline g data k r))
      (joinComments data ++ [r]) := by
  induction data with
  | nil =>
    show List.Perm (joinComments [(k, updateMoment g emptyMoment k r)]) _
    rw [joinComments_cons]
    simp only [updateMoment, emptyMoment, joinComments]
    simpa using hg [r]
  | cons q rest ih =>
    obtain ⟨a, m⟩ := q
    by_cases hak : a = k
    · subst hak
      rw [show updateTimeline g ((a, m) :: rest) a r =
        (a, updateMoment g m a r) :: rest by simp [updateTimeline]]
      rw [joinComments_cons, joinComments_cons]
      show List.Perm (g (m.comments ++ [r]) ++ joinComments rest) _
      calc g (m.comments ++ [r]) ++ joinComments rest
          ~ (m.comments ++ [r]) ++ joinComments rest :=
            (hg _).append_right _
        _ = m.comments ++ ([r] ++ joinComments rest) := by
            rw [List.append_assoc]
        _ ~ m.comments ++ (joinComments rest ++ [r]) :=
            List.Perm.append_left _ (List.perm_append_comm)
        _ = m.comments ++ joinComments rest ++ [r] := by
            rw [List.append_assoc]
    · rw [show updateTimeline g ((a, m) :: rest) k r =
        (a, m) :: updateTimeline g rest k r by simp [updateTimeline, hak]]
      rw [joinComments_cons, joinComments_cons]
      calc m.comments ++ joinComments (updateTimeline g rest k r)
          ~ m.comments ++ (joinComments rest ++ [r]) :=
            List.Perm.append_left _ ih
        _ = m.comments ++ joinComments rest ++ [r] := by
            rw [List.append_assoc]

/-- Every member of every entry stays within 5 seconds of its entry's key,
provided the filed row does. -/
theorem updateTimeline_close (g : List Row → List Row)
    (hg : ∀ l, List.Perm (g l) l) (data : Timeline) (k : Nat) (r : Row)
    (hdata : ∀ p ∈ data, ∀ x ∈ p.2.comments, absDiff (tsKey x) p.1 ≤ 5)
    (hr : absDiff (tsKey r) k ≤ 5) :
    ∀ p ∈ updateTimeline g data k r, ∀ x ∈ p.2.comments,
      absDiff (tsKey x) p.1 ≤ 5 := by
  induction data with
  | nil =>
    intro p hp x hx
    simp only [updateTimeline, List.mem_singleton] at hp
    subst hp
    have hx' := (hg _).mem_iff.mp hx
    simp only [updateMoment, emptyMoment, List.nil_append,
      List.mem_singleton] at hx'
    subst hx'
    simpa using hr
  | cons q rest ih =>
    obtain ⟨a, m⟩ := q
    intro p hp x hx
    by_cases hak : a = k
    · subst hak
      rw [show updateTimeline g ((a, m) :: rest) a r =
        (a, updateMoment g m a r) :: rest by simp [updateTimeline]] at hp
      rcases List.mem_cons.mp hp with rfl | hp2
      · have hx' := (hg _).mem_iff.mp hx
        rcases List.mem_append.mp hx' with hx2 | hx2
        · exact hdata (a, m) (by simp) x hx2
        · rw [List.mem_singleton.mp hx2]
          simpa using hr
      · exact hdata p (List.mem_cons_of_mem _ hp2) x hx
    · rw [show updateTimeline g ((a, m) :: rest) k r =
        (a, m) :: updateTimeline g rest k r by
          simp [updateTimeline, hak]] at hp
      rcases List.mem_cons.mp hp with rfl | hp2
      · exact hdata (a, m) (by simp) x hx
      · exact ih (fun p' hp' => hdata p' (List.mem_cons_of_mem _ hp')) p hp2
          x hx

/-- `representative_time` always equals the entry's key. -/
theorem updateTimeline_rep (g : List Row → List Row) (data : Timeline)
    (k : Nat) (r : Row)
    (hdata : ∀ p ∈ data, p.2.representative_time = p.1) :
    ∀ p ∈ updateTimeline g data k r, p.2.representative_time = p.1 := by
  induction data with
  | nil =>
    intro p hp
    simp only [updateTimeline, List.mem_singleton] at hp
    subst hp
    rfl
  | cons q rest ih =>
    obtain ⟨a, m⟩ := q
    intro p hp
    by_cases hak : a = k
    · subst hak
      rw [show updateTimeline g ((a, m) :: rest) a r =
        (a, updateMoment g m a r) :: rest by simp [updateTimeline]] at hp
      rcases List.mem_cons.mp hp with rfl | hp2
      · rfl
      · exact hdata p (List.mem_cons_of_mem _ hp2)
    · rw [show updateTimeline g ((a, m) :: rest) k r =
        (a, m) :: updateTimeline g rest k r by
          simp [updateTimeline, hak]] at hp
      rcases List.mem_cons.mp hp with rfl | hp2
      · exact hdata (a, m) (by simp)
      · exact ih (fun p' hp' => hdata p' (List.mem_cons_of_mem _ hp')) p hp2

theorem walk_join (g : List Row → List Row)
    (hg : ∀ l, List.Perm (g l) l) :
    ∀ (rs : List Row) (anchor : Option Nat) (data : Timeline),
      List.Perm (joinComments (walk g rs anchor data))
        (joinComments data ++ rs) := by
  intro rs
  induction rs with
  | nil => intro anchor data; simp [walk]
  | cons r rs ih =>
    intro anchor data
    show List.Perm (joinComments (walk g rs _ _)) _
    calc joinComments (walk g rs (some (stepAnchor anchor (tsKey r)))
          (updateTimeline g data (stepAnchor anchor (tsKey r)) r))
        ~ joinComments (updateTimeline g data
            (stepAnchor anchor (tsKey r)) r) ++ rs := ih _ _
      _ ~ (joinComments data ++ [r]) ++ rs :=
          (updateTimeline_join g hg data _ r).append_right rs
      _ = joinComments data ++ (r :: rs) := by simp

theorem walk_close (g : List Row → List Row)
    (hg : ∀ l, List.Perm (g l) l) :
    ∀ (rs : List Row) (anchor : Option Nat) (data : Timeline),
      (∀ p ∈ data, ∀ x ∈ p.2.comments, absDiff (tsKey x) p.1 ≤ 5) →
      ∀ p ∈ walk g rs anchor data, ∀ x ∈ p.2.comments,
        absDiff (tsKey x) p.1 ≤ 5 := by
  intro rs
  induction rs with
  | nil => intro anchor data h; simpa [walk] using h
  | cons r rs ih =>
    intro anchor data h
    exact ih _ _ (updateTimeline_close g hg data _ r h
      (stepAnchor_close anchor (tsKey r)))

theorem walk_rep (g : List Row → List Row) :
    ∀ (rs : List Row) (anchor : Option Nat) (data : Timeline),
      (∀ p ∈ data, p.2.representative_time = p.1) →
      ∀ p ∈ walk g rs anchor data, p.2.representative_time = p.1 := by
  intro rs
  induction rs with
  | nil => intro anchor data h; simpa [walk] using h
  | cons r rs ih =>
    intro anchor data h
    exact ih _ _ (updateTimeline_rep g data _ r h)

/-- Keys of the timeline stay strictly increasing along the sorted walk:
a joining row reuses the anchor key, a cluster-opening row's key exceeds
every existing key by more than 5. -/
theorem walk_keys (g : List Row → List Row) :
    ∀ (rs : List Row) (a : Nat) (data : Timeline),
      rs.Pairwise (fun x y => tsKey x ≤ tsKey y) →
      (keys data).Pairwise (· < ·) →
      (∀ k ∈ keys data, k ≤ a) → a ∈ keys data →
      (∀ x ∈ rs, a ≤ tsKey x) →
      (keys (walk g rs (some a) data)).Pairwise (· < ·) := by
  intro rs
  induction rs with
  | nil => intro a data _ hinc _ _ _; simpa [walk] using hinc
  | cons r rs ih =>
    intro a data hsorted hinc hle hmem hge
    rcases List.pairwise_cons.mp hsorted with ⟨hr, hsorted'⟩
    have hat : a ≤ tsKey r := hge r (by simp)
    show (keys (walk g rs (some (stepAnchor (some a) (tsKey r)))
      (updateTimeline g data (stepAnchor (some a) (tsKey r)) r))).Pairwise _
    by_cases h5 : 5 < absDiff (tsKey r) a
    · have hstep : stepAnchor (some a) (tsKey r) = tsKey r := by
        simp [stepAnchor, h5]
      rw [hstep]
      have hgt : a + 5 < tsKey r := by
        rw [absDiff_of_le hat] at h5; omega
      have hfresh : tsKey r ∉ keys data := by
        intro hcon
        have := hle _ hcon
        omega
      rw [updateTimeline_fresh g data _ r hfresh]
      have hkeys : keys (data ++ [(tsKey r, updateMoment g emptyMoment
          (tsKey r) r)]) = keys data ++ [tsKey r] := by
        simp [keys]
      refine ih (tsKey r) _ hsorted' ?_ ?_ ?_ hr
      · rw [hkeys]
        rw [List.pairwise_append]
        refine ⟨hinc, List.pairwise_singleton _ _, ?_⟩
        intro k hk k' hk'
        rw [List.mem_singleton.mp hk']
        have := hle k hk
        omega
      · rw [hkeys]
        intro k hk
        rcases List.mem_append.mp hk with hk2 | hk2
        · have := hle k hk2; omega
        · rw [List.mem_singleton.mp hk2]
      · rw [hkeys]
        exact List.mem_append.mpr (Or.inr (by simp))
    · have hstep : stepAnchor (some a) (tsKey r) = a := by
        simp [stepAnchor, h5]
      rw [hstep]
      have hkeq : keys (updateTimeline g data a r) = keys data :=
        updateTimeline_keys_mem g data a r hmem
      refine ih a _ hsorted' ?_ ?_ ?_ ?_
      · rw [hkeq]; exact hinc
      · rw [hkeq]; exact hle
      · rw [hkeq]; exact hmem
      · intro x hx
        have := hr x hx
        omega

/-! ## Aggregate-level invariants -/

theorem aggregateWith_join (g : List Row → List Row)
    (hg : ∀ l, List.Perm (g l) l) (df : List Row) :
    List.Perm (joinComments (aggregateWith g df))
      (df.filter (fun r => r.timestamp.isSome)) := by
  by_cases h : (df.filter (fun r => r.timestamp.isSome)).length = 0
  · rw [show aggregateWith g df = [] by simp [aggregateWith, h]]
    rw [List.length_eq_zero.mp h]
    simp [joinComments]
  · rw [show aggregateWith g df =
      walk g (sortByTs (df.filter (fun r => r.timestamp.isSome))) none [] by
        simp [aggregateWith, h]]
    calc joinComments
          (walk g (sortByTs (df.filter (fun r => r.timestamp.isSome))) none [])
        ~ joinComments [] ++
            sortByTs (df.filter (fun r => r.timestamp.isSome)) :=
          walk_join g hg _ _ _
      _ = sortByTs (df.filter (fun r => r.timestamp.isSome)) := by
          simp [joinComments]
      _ ~ df.filter (fun r => r.timestamp.isSome) := sortByTs_perm _

theorem aggregateWith_close (g : List Row → List Row)
    (hg : ∀ l, List.Perm (g l) l) (df : List Row) :
    ∀ p ∈ aggregateWith g df, ∀ x ∈ p.2.comments,
      absDiff (tsKey x) p.1 ≤ 5 := by
  by_cases h : (df.filter (fun r => r.timestamp.isSome)).length = 0
  · rw [show aggregateWith g df = [] by simp [aggregateWith, h]]
    intro p hp
    simp at hp
  · rw [show aggregateWith g df =
      walk g (sortByTs (df.filter (fun r => r.timestamp.isSome))) none [] by
        simp [aggregateWith, h]]
    exact walk_close g hg _ none [] (by intro p hp; simp at hp)

theorem aggregateWith_rep (g : List Row → List Row) (df : List Row) :
    ∀ p ∈ aggregateWith g df, p.2.representative_time = p.1 := by
  by_cases h : (df.filter (fun r => r.timestamp.isSome)).length = 0
  · rw [show aggregateWith g df = [] by simp [aggregateWith, h]]
    intro p hp
    simp at hp
  · rw [show aggregateWith g df =
      walk g (sortByTs (df.filter (fun r => r.timestamp.isSome))) none [] by
        simp [aggregateWith, h]]
    exact walk_rep g _ none [] (by intro p hp; simp at hp)

theorem aggregateWith_keys (g : List Row → List Row) (df : List Row) :
    (keys (aggregateWith g df)).Pairwise (· < ·) := by
  by_cases h : (df.filter (fun r => r.timestamp.isSome)).length = 0
  · rw [show aggregateWith g df = [] by simp [aggregateWith, h]]
    simp [keys]
  · rw [show aggregateWith g df =
      walk g (sortByTs (df.filter (fun r => r.timestamp.isSome))) none [] by
        simp [aggregateWith, h]]
    have hsorted := sortByTs_sorted (df.filter (fun r => r.timestamp.isSome))
    cases hl : sortByTs (df.filter (fun r => r.timestamp.isSome)) with
    | nil => simp [walk, keys]
    | cons r rs =>
      rw [hl] at hsorted
      rcases List.pairwise_cons.mp hsorted with ⟨hr, hsorted'⟩
      show (keys (walk g rs (some (stepAnchor none (tsKey r)))
        (updateTimeline g [] (stepAnchor none (tsKey r)) r))).Pairwise _
      rw [show stepAnchor none (tsKey r) = tsKey r from rfl]
      rw [show updateTimeline g [] (tsKey r) r =
        [(tsKey r, updateMoment g emptyMoment (tsKey r) r)] by
          simp [updateTimeline]]
      refine walk_keys g rs (tsKey r) _ hsorted' ?_ ?_ ?_ hr
      · simp [keys]
      · intro k hk
        simp [keys] at hk
        omega
      · simp [keys]

/-! ## The top-N ranking order -/

/-- The order the top-N view presents: strictly more total likes first, and
on equal total likes the smaller representative time first. -/
def DisplayOrder (p q : Nat × Moment) : Prop :=
  q.2.total_likes < p.2.total_likes ∨
    (q.2.total_likes = p.2.total_likes ∧
      p.2.representative_time < q.2.representative_time)

/-- Same order expressed on the dict keys. -/
def KeyOrder (p q : Nat × Moment) : Prop :=
  q.2.total_likes < p.2.total_likes ∨
    (q.2.total_likes = p.2.total_likes ∧ p.1 < q.1)

theorem insertByTotalLikes_perm (p : Nat × Moment) (l : Timeline) :
    List.Perm (insertByTotalLikes p l) (p :: l) := by
  induction l with
  | nil => simp [insertByTotalLikes]
  | cons x xs ih =>
    unfold insertByTotalLikes
    split
    · exact List.Perm.refl _
    · exact ((ih.cons x).trans (List.Perm.swap p x xs))

theorem sortByTotalLikesDesc_perm (l : Timeline) :
    List.Perm (sortByTotalLikesDesc l) l := by
  induction l with
  | nil => simp [sortByTotalLikesDesc]
  | cons x xs ih =>
    simpa [sortByTotalLikesDesc] using
      ((insertByTotalLikes_perm x (sortByTotalLikesDesc xs)).trans (ih.cons x))

theorem insertByTotalLikes_rank (x : Nat × Moment) (s : Timeline)
    (hs : s.Pairwise KeyOrder) (hx : ∀ q ∈ s, x.1 < q.1) :
    (insertByTotalLikes x s).Pairwise KeyOrder := by
  induction s with
  | nil => simp [insertByTotalLikes]
  | cons q qs ih =>
    rcases List.pairwise_cons.mp hs with ⟨hq, hqs⟩
    by_cases hle : q.2.total_likes ≤ x.2.total_likes
    · rw [show insertByTotalLikes x (q :: qs) = x :: q :: qs by
        simp [insertByTotalLikes, hle]]
      refine List.pairwise_cons.mpr ⟨?_, hs⟩
      intro b hb
      rcases List.mem_cons.mp hb with rfl | hb2
      · rcases Nat.lt_or_ge b.2.total_likes x.2.total_likes with h | h
        · exact Or.inl h
        · exact Or.inr ⟨by omega, hx b (by simp)⟩
      · have hqb := hq b hb2
        have hble : b.2.total_likes ≤ q.2.total_likes := by
          rcases hqb with h | ⟨h, _⟩ <;> omega
        rcases Nat.lt_or_ge b.2.total_likes x.2.total_likes with h | h
        · exact Or.inl h
        · exact Or.inr ⟨by omega, hx b (List.mem_cons_of_mem _ hb2)⟩
    · rw [show insertByTotalLikes x (q :: qs) =
        q :: insertByTotalLikes x qs by simp [insertByTotalLikes, hle]]
      refine List.pairwise_cons.mpr
        ⟨?_, ih hqs (fun b hb => hx b (List.mem_cons_of_mem _ hb))⟩
      intro b hb
      rcases List.mem_cons.mp
        ((insertByTotalLikes_perm x qs).mem_iff.mp hb) with rfl | hb2
      · exact Or.inl (by omega)
      · exact hq b hb2

/-- A stable descending sort by total likes of a strictly-increasing-key
timeline is ordered by `KeyOrder`: ties in total likes keep ascending keys. -/
theorem sortByTotalLikesDesc_rank (l : Timeline)
    (hkeys : l.Pairwise (fun p q => p.1 < q.1)) :
    (sortByTotalLikesDesc l).Pairwise KeyOrder := by
  induction l with
  | nil => simp [sortByTotalLikesDesc]
  | cons x xs ih =>
    rcases List.pairwise_cons.mp hkeys with ⟨hx, hxs⟩
    show (insertByTotalLikes x (sortByTotalLikesDesc xs)).Pairwise KeyOrder
    refine insertByTotalLikes_rank x _ (ih hxs) ?_
    intro q hq
    exact hx q ((sortByTotalLikesDesc_perm xs).mem_iff.mp hq)

/-! ## Shape of regex matches and the extraction formula -/

theorem digit_ne_colon {c : Char} (h : c.isDigit = true) :
    (c == ':') = false := by
  cases h2 : (c == ':') with
  | false => rfl
  | true =>
    rw [show c = ':' from beq_iff_eq.mp h2] at h
    exact absurd h (by decide)

theorem splitColon_group2 (a b : Char) (rest : List Char)
    (ha : (a == ':') = false) (hb : (b == ':') = false) :
    splitColon (a :: b :: ':' :: rest) = [a, b] :: splitColon rest := by
  simp [splitColon, ha, hb]

theorem splitColon_group1 (a : Char) (rest : List Char)
    (ha : (a == ':') = false) :
    splitColon (a :: ':' :: rest) = [a] :: splitColon rest := by
  simp [splitColon, ha]

theorem splitColon_pair (d e : Char) (hd : (d == ':') = false)
    (he : (e == ':') = false) : splitColon [d, e] = [[d, e]] := by
  simp [splitColon, hd, he]

theorem toInt?_two (d e : Char) (hd : d.isDigit = true)
    (he : e.isDigit = true) : toInt? [d, e] = some (digitsToNat [d, e]) := by
  simp [toInt?, hd, he]

theorem toInt?_one (d : Char) (hd : d.isDigit = true) :
    toInt? [d] = some (digitsToNat [d]) := by
  simp [toInt?, hd]

/-- The colon-split fields of a matched substring: there are exactly two or
three of them and `int` conversion succeeds on each. -/
def GoodParts (m : List Char) : Prop :=
  (∃ p1 p2, splitColon m = [p1, p2] ∧
    toInt? p1 = some (digitsToNat p1) ∧ toInt? p2 = some (digitsToNat p2)) ∨
  (∃ p1 p2 p3, splitColon m = [p1, p2, p3] ∧
    toInt? p1 = some (digitsToNat p1) ∧ toInt? p2 = some (digitsToNat p2) ∧
    toInt? p3 = some (digitsToNat p3))

theorem band_split {a b : Bool} (h : (a && b) = true) :
    a = true ∧ b = true :=
  ⟨Bool.and_elim_left h, Bool.and_elim_right h⟩

theorem matchMS_parts (s m : List Char) (h : matchMS s = some m) :
    ∃ p1 p2, splitColon m = [p1, p2] ∧
      toInt? p1 = some (digitsToNat p1) ∧ toInt? p2 = some (digitsToNat p2) := by
  match s with
  | [] => exact Option.noConfusion h
  | [a] => exact Option.noConfusion h
  | [a, b] =>
    have h2 : (if (a.isDigit && b.isDigit) = true then (none : Option (List Char))
        else if (a.isDigit && (b == ':')) = true then none else none) =
        some m := h
    split_ifs at h2
  | [a, b, c] =>
    have h3 : (if (a.isDigit && b.isDigit) = true then (none : Option (List Char))
        else if (a.isDigit && (b == ':')) = true then none else none) =
        some m := h
    split_ifs at h3
  | [a, b, c, d] =>
    have h4 : (if (a.isDigit && b.isDigit) = true then (none : Option (List Char))
        else if (a.isDigit && (b == ':')) = true then
          (if (c.isDigit && d.isDigit) = true then some [a, b, c, d] else none)
        else none) = some m := h
    split_ifs at h4 with hab hac hcd
    · rcases band_split hac with ⟨hda, hbc⟩
      rcases band_split hcd with ⟨hdc, hdd⟩
      have hm : m = [a, b, c, d] := (Option.some_inj.mp h4).symm
      rw [hm, show b = ':' from beq_iff_eq.mp hbc]
      refine ⟨[a], [c, d], ?_, toInt?_one a hda, toInt?_two c d hdc hdd⟩
      rw [splitColon_group1 a [c, d] (digit_ne_colon hda)]
      rw [splitColon_pair c d (digit_ne_colon hdc) (digit_ne_colon hdd)]
  | a :: b :: c :: d :: e :: r =>
    have h5 : (if (a.isDigit && b.isDigit) = true then
          (if (c == ':' && d.isDigit && e.isDigit) = true then
            some [a, b, c, d, e] else none)
        else if (a.isDigit && (b == ':')) = true then
          (if (c.isDigit && d.isDigit) = true then some [a, b, c, d] else none)
        else none) = some m := h
    split_ifs at h5 with hab hcde hac hcd
    · rcases band_split hab with ⟨hda, hdb⟩
      rcases band_split hcde with ⟨hc1, hdee⟩
      rcases band_split hc1 with ⟨hcc, hdd⟩
      have hm : m = [a, b, c, d, e] := (Option.some_inj.mp h5).symm
      rw [hm, show c = ':' from beq_iff_eq.mp hcc]
      refine ⟨[a, b], [d, e], ?_, toInt?_two a b hda hdb,
        toInt?_two d e hdd hdee⟩
      rw [splitColon_group2 a b [d, e] (digit_ne_colon hda)
        (digit_ne_colon hdb)]
      rw [splitColon_pair d e (digit_ne_colon hdd) (digit_ne_colon hdee)]
    · rcases band_split hac with ⟨hda, hbc⟩
      rcases band_split hcd with ⟨hdc, hdd⟩
      have hm : m = [a, b, c, d] := (Option.some_inj.mp h5).symm
      rw [hm, show b = ':' from beq_iff_eq.mp hbc]
      refine ⟨[a], [c, d], ?_, toInt?_one a hda, toInt?_two c d hdc hdd⟩
      rw [splitColon_group1 a [c, d] (digit_ne_colon hda)]
      rw [splitColon_pair c d (digit_ne_colon hdc) (digit_ne_colon hdd)]

theorem matchTimestampAt_parts (s m : List Char)
    (h : matchTimestampAt s = some m) : GoodParts m := by
  match s with
  | [] => exact Or.inl (matchMS_parts [] m h)
  | [a] => exact Or.inl (matchMS_parts [a] m h)
  | [a, b] => exact Or.inl (matchMS_parts [a, b] m h)
  | a :: b :: c :: rest =>
    have h3 : (if (a.isDigit && b.isDigit && (c == ':')) = true then
          (match matchMS rest with
            | some m2 => some (a :: b :: c :: m2)
            | none => matchMS (a :: b :: c :: rest))
        else if (a.isDigit && (b == ':')) = true then
          (match matchMS (c :: rest) with
            | some m2 => some (a :: b :: m2)
            | none => matchMS (a :: b :: c :: rest))
        else matchMS (a :: b :: c :: rest)) = some m := h
    split_ifs at h3 with h1 h2
    · cases hms : matchMS rest with
      | some m2 =>
        rw [hms] at h3
        rcases band_split h1 with ⟨h1a, hcc⟩
        rcases band_split h1a with ⟨hda, hdb⟩
        have hm : m = a :: b :: c :: m2 := (Option.some_inj.mp h3).symm
        rcases matchMS_parts rest m2 hms with ⟨p1, p2, hsp, hi1, hi2⟩
        rw [hm, show c = ':' from beq_iff_eq.mp hcc]
        refine Or.inr ⟨[a, b], p1, p2, ?_, toInt?_two a b hda hdb, hi1, hi2⟩
        rw [splitColon_group2 a b m2 (digit_ne_colon hda)
          (digit_ne_colon hdb), hsp]
      | none =>
        rw [hms] at h3
        exact Or.inl (matchMS_parts _ m h3)
    · cases hms : matchMS (c :: rest) with
      | some m2 =>
        rw [hms] at h3
        rcases band_split h2 with ⟨hda, hbc⟩
        have hm : m = a :: b :: m2 := (Option.some_inj.mp h3).symm
        rcases matchMS_parts (c :: rest) m2 hms with ⟨p1, p2, hsp, hi1, hi2⟩
        rw [hm, show b = ':' from beq_iff_eq.mp hbc]
        refine Or.inr ⟨[a], p1, p2, ?_, toInt?_one a hda, hi1, hi2⟩
        rw [splitColon_group1 a m2 (digit_ne_colon hda), hsp]
      | none =>
        rw [hms] at h3
        exact Or.inl (matchMS_parts _ m h3)
    · exact Or.inl (matchMS_parts _ m h3)

theorem searchTimestamp_shape (s m : List Char)
    (h : searchTimestamp s = some m) :
    ∃ t : List Char, matchTimestampAt t = some m := by
  induction s with
  | nil => simp [searchTimestamp] at h
  | cons a rest ih =>
    rw [searchTimestamp] at h
    cases hm : matchTimestampAt (a :: rest) with
    | some m2 =>
      rw [hm] at h
      exact ⟨a :: rest, by rw [hm, Option.some_inj.mp h]⟩
    | none =>
      rw [hm] at h
      exact ih h

/-- Modelled from the spec: the conversion rule of §4.1 — a two-field match
is minutes:seconds, a three-field match is hours:minutes:seconds,
`total = hours*3600 + minutes*60 + seconds`. -/
def specTimestampValue (parts : List (List Char)) : Nat :=
  match parts with
  | [p1, p2] => digitsToNat p1 * 60 + digitsToNat p2
  | [p1, p2, p3] =>
    digitsToNat p1 * 3600 + digitsToNat p2 * 60 + digitsToNat p3
  | _ => 0

/-- Whenever the regex search finds a match, `parse_timestamp` returns
exactly the spec's conversion of the matched fields — in particular the
`int` conversions never fail and the `except` arm is never taken. -/
theorem convertParts_two (p1 p2 : List Char) (v1 v2 : Nat)
    (h1 : toInt? p1 = some v1) (h2 : toInt? p2 = some v2) :
    convertParts [p1, p2] = some (v1 * 60 + v2) := by
  rw [convertParts, h1, h2]

theorem convertParts_three (p1 p2 p3 : List Char) (v1 v2 v3 : Nat)
    (h1 : toInt? p1 = some v1) (h2 : toInt? p2 = some v2)
    (h3 : toInt? p3 = some v3) :
    convertParts [p1, p2, p3] = some (v1 * 3600 + v2 * 60 + v3) := by
  rw [convertParts, h1, h2, h3]

theorem parse_timestamp_refines (s m : List Char)
    (h : searchTimestamp s = some m) :
    parse_timestamp s = some (specTimestampValue (splitColon m)) := by
  rcases searchTimestamp_shape s m h with ⟨t, hat⟩
  have hp : parse_timestamp s = convertParts (splitColon m) := by
    rw [parse_timestamp, h]
  rcases matchTimestampAt_parts t m hat with
    ⟨p1, p2, hsp, hi1, hi2⟩ | ⟨p1, p2, p3, hsp, hi1, hi2, hi3⟩
  · rw [hp, hsp, convertParts_two p1 p2 _ _ hi1 hi2, specTimestampValue]
  · rw [hp, hsp, convertParts_three p1 p2 p3 _ _ _ hi1 hi2 hi3,
      specTimestampValue]

/-! ## Assembled helper facts -/

theorem aggregateWith_empty (g : List Row → List Row) (df : List Row)
    (h : ∀ r ∈ df, r.timestamp = none) : aggregateWith g df = [] := by
  have hf : df.filter (fun r => r.timestamp.isSome) = [] :=
    List.filter_eq_nil_iff.mpr (by intro r hr; simp [h r hr])
  simp [aggregateWith, hf]

theorem topMoments_ordered (data : Timeline)
    (hkeys : (keys data).Pairwise (· < ·))
    (hrep : ∀ p ∈ data, p.2.representative_time = p.1) :
    (topMoments data).length ≤ 10 ∧
      (topMoments data).Pairwise DisplayOrder := by
  rw [keys] at hkeys
  have hkeys2 : data.Pairwise (fun p q => p.1 < q.1) :=
    List.pairwise_map.mp hkeys
  have hrank := sortByTotalLikesDesc_rank data hkeys2
  have htake : (topMoments data).Pairwise KeyOrder :=
    hrank.sublist (List.take_sublist 10 _)
  constructor
  · exact List.length_take_le 10 _
  · refine htake.imp_of_mem ?_
    intro a b ha hb hab
    have ha2 : a ∈ data := (sortByTotalLikesDesc_perm data).mem_iff.mp
      (List.take_subset 10 _ ha)
    have hb2 : b ∈ data := (sortByTotalLikesDesc_perm data).mem_iff.mp
      (List.take_subset 10 _ hb)
    rcases hab with hlt | ⟨heq, hkey⟩
    · exact Or.inl hlt
    · exact Or.inr ⟨heq, by rw [hrep a ha2, hrep b hb2]; exact hkey⟩

theorem forall₂_mem_left {α β : Type} {R : α → β → Prop} :
    ∀ {l1 : List α} {l2 : List β}, List.Forall₂ R l1 l2 →
      ∀ p ∈ l1, ∃ q, R p q := by
  intro l1 l2 h
  induction h with
  | nil => intro p hp; exact absurd hp (by simp)
  | cons h1 _ ih =>
    intro p hp
    rcases List.mem_cons.mp hp with rfl | hp2
    · exact ⟨_, h1⟩
    · exact ih p hp2

/-! ## Correspondence between the two aggregate implementations -/

/-- Relation between a das.py timeline entry and the das-mainpage.py entry
built from the same rows: same key, likes and representative time, and the
das.py member list is the stable descending-likes sort of the mainpage
member list (which is in raw walk order). -/
def MomentRel (p q : Nat × Moment) : Prop :=
  p.1 = q.1 ∧ p.2.comments = sortByLikesDesc q.2.comments ∧
    p.2.total_likes = q.2.total_likes ∧
    p.2.representative_time = q.2.representative_time

theorem updateTimeline_rel (d i : Timeline) (k : Nat) (r : Row)
    (h : List.Forall₂ MomentRel d i) :
    List.Forall₂ MomentRel (updateTimeline sortByLikesDesc d k r)
      (updateTimeline (fun l => l) i k r) := by
  induction h with
  | nil =>
    refine List.Forall₂.cons ⟨rfl, ?_, rfl, rfl⟩ List.Forall₂.nil
    rfl
  | @cons p q d2 i2 hpq hrest ih =>
    obtain ⟨a, md⟩ := p
    obtain ⟨b, mi⟩ := q
    obtain ⟨hkey, hcom, hlik, hrep⟩ := hpq
    simp only at hkey hcom hlik hrep
    subst hkey
    by_cases hak : a = k
    · subst hak
      rw [show updateTimeline sortByLikesDesc ((a, md) :: d2) a r =
        (a, updateMoment sortByLikesDesc md a r) :: d2 by
          simp [updateTimeline]]
      rw [show updateTimeline (fun l => l) ((a, mi) :: i2) a r =
        (a, updateMoment (fun l => l) mi a r) :: i2 by
          simp [updateTimeline]]
      refine List.Forall₂.cons ⟨rfl, ?_, ?_, rfl⟩ hrest
      · show sortByLikesDesc (md.comments ++ [r]) = _
        rw [hcom, sortByLikesDesc_absorb]
        rfl
      · show md.total_likes + r.likeCount = mi.total_likes + r.likeCount
        rw [hlik]
    · rw [show updateTimeline sortByLikesDesc ((a, md) :: d2) k r =
        (a, md) :: updateTimeline sortByLikesDesc d2 k r by
          simp [updateTimeline, hak]]
      rw [show updateTimeline (fun l => l) ((a, mi) :: i2) k r =
        (a, mi) :: updateTimeline (fun l => l) i2 k r by
          simp [updateTimeline, hak]]
      exact List.Forall₂.cons ⟨rfl, hcom, hlik, hrep⟩ ih

theorem walk_rel :
    ∀ (rs : List Row) (anchor : Option Nat) (d i : Timeline),
      List.Forall₂ MomentRel d i →
      List.Forall₂ MomentRel (walk sortByLikesDesc rs anchor d)
        (walk (fun l => l) rs anchor i) := by
  intro rs
  induction rs with
  | nil => intro anchor d i h; simpa [walk] using h
  | cons r rs ih =>
    intro anchor d i h
    exact ih _ _ _ (updateTimeline_rel d i _ r h)

/-- The two implementations build the same timeline, up to the das.py
per-group descending-likes sort of the member lists. -/
theorem aggregate_rel (df : List Row) :
    List.Forall₂ MomentRel (aggregate_timeline_comments df)
      (aggregate_mainpage df) := by
  unfold aggregate_timeline_comments aggregate_mainpage
  by_cases h : (df.filter (fun r => r.timestamp.isSome)).length = 0
  · rw [show aggregateWith sortByLikesDesc df = [] by
      simp [aggregateWith, h]]
    rw [show aggregateWith (fun l => l) df = [] by simp [aggregateWith, h]]
    exact List.Forall₂.nil
  · rw [show aggregateWith sortByLikesDesc df = walk sortByLikesDesc
      (sortByTs (df.filter (fun r => r.timestamp.isSome))) none [] by
        simp [aggregateWith, h]]
    rw [show aggregateWith (fun l => l) df = walk (fun l => l)
      (sortByTs (df.filter (fun r => r.timestamp.isSome))) none [] by
        simp [aggregateWith, h]]
    exact walk_rel _ none [] [] List.Forall₂.nil

/-! ## Texts without a digit-colon-digit pattern never match -/

/-- Whether the text contains a digit, a colon and a digit at three
consecutive positions — the minimal skeleton any match of
`(\d{1,2}:)?\d{1,2}:\d{2}` must contain. -/
def hasDigitColonDigit : List Char → Bool
  | a :: b :: c :: rest =>
    (a.isDigit && (b == ':') && c.isDigit) || hasDigitColonDigit (b :: c :: rest)
  | _ => false

theorem hasDigitColonDigit_tail (a : Char) (rest : List Char)
    (h : hasDigitColonDigit rest = true) :
    hasDigitColonDigit (a :: rest) = true := by
  match rest with
  | [] => exact Bool.noConfusion h
  | [b] => exact Bool.noConfusion h
  | b :: c :: rest2 => simp [hasDigitColonDigit, h]

theorem matchMS_hasDCD (s m : List Char) (h : matchMS s = some m) :
    hasDigitColonDigit s = true := by
  match s with
  | [] => exact Option.noConfusion h
  | [a] => exact Option.noConfusion h
  | [a, b] =>
    have h2 : (if (a.isDigit && b.isDigit) = true then (none : Option (List Char))
        else if (a.isDigit && (b == ':')) = true then none else none) =
        some m := h
    split_ifs at h2
  | [a, b, c] =>
    have h3 : (if (a.isDigit && b.isDigit) = true then (none : Option (List Char))
        else if (a.isDigit && (b == ':')) = true then none else none) =
        some m := h
    split_ifs at h3
  | [a, b, c, d] =>
    have h4 : (if (a.isDigit && b.isDigit) = true then (none : Option (List Char))
        else if (a.isDigit && (b == ':')) = true then
          (if (c.isDigit && d.isDigit) = true then some [a, b, c, d] else none)
        else none) = some m := h
    split_ifs at h4 with hab hac hcd
    · rcases band_split hac with ⟨hda, hbc⟩
      rcases band_split hcd with ⟨hdc, _⟩
      simp [hasDigitColonDigit, hda, hbc, hdc]
  | a :: b :: c :: d :: e :: r =>
    have h5 : (if (a.isDigit && b.isDigit) = true then
          (if (c == ':' && d.isDigit && e.isDigit) = true then
            some [a, b, c, d, e] else none)
        else if (a.isDigit && (b == ':')) = true then
          (if (c.isDigit && d.isDigit) = true then some [a, b, c, d] else none)
        else none) = some m := h
    split_ifs at h5 with hab hcde hac hcd
    · rcases band_split hab with ⟨_, hdb⟩
      rcases band_split hcde with ⟨hc1, _⟩
      rcases band_split hc1 with ⟨hcc, hdd⟩
      simp [hasDigitColonDigit, hdb, hcc, hdd]
    · rcases band_split hac with ⟨hda, hbc⟩
      rcases band_split hcd with ⟨hdc, _⟩
      simp [hasDigitColonDigit, hda, hbc, hdc]

theorem matchMS_head_digit (a : Char) (r m : List Char)
    (h : matchMS (a :: r) = some m) : a.isDigit = true := by
  match r with
  | [] => exact Option.noConfusion h
  | [b] =>
    have h2 : (if (a.isDigit && b.isDigit) = true then (none : Option (List Char))
        else if (a.isDigit && (b == ':')) = true then none else none) =
        some m := h
    split_ifs at h2
  | [b, c] =>
    have h3 : (if (a.isDigit && b.isDigit) = true then (none : Option (List Char))
        else if (a.isDigit && (b == ':')) = true then none else none) =
        some m := h
    split_ifs at h3
  | [b, c, d] =>
    have h4 : (if (a.isDigit && b.isDigit) = true then (none : Option (List Char))
        else if (a.isDigit && (b == ':')) = true then
          (if (c.isDigit && d.isDigit) = true then some [a, b, c, d] else none)
        else none) = some m := h
    split_ifs at h4 with hab hac hcd
    · exact (band_split hac).1
  | b :: c :: d :: e :: r2 =>
    have h5 : (if (a.isDigit && b.isDigit) = true then
          (if (c == ':' && d.isDigit && e.isDigit) = true then
            some [a, b, c, d, e] else none)
        else if (a.isDigit && (b == ':')) = true then
          (if (c.isDigit && d.isDigit) = true then some [a, b, c, d] else none)
        else none) = some m := h
    split_ifs at h5 with hab hcde hac hcd
    · exact (band_split hab).1
    · exact (band_split hac).1

theorem matchTimestampAt_hasDCD (s m : List Char)
    (h : matchTimestampAt s = some m) : hasDigitColonDigit s = true := by
  match s with
  | [] => exact matchMS_hasDCD [] m h
  | [a] => exact matchMS_hasDCD [a] m h
  | [a, b] => exact matchMS_hasDCD [a, b] m h
  | a :: b :: c :: rest =>
    have h3 : (if (a.isDigit && b.isDigit && (c == ':')) = true then
          (match matchMS rest with
            | some m2 => some (a :: b :: c :: m2)
            | none => matchMS (a :: b :: c :: rest))
        else if (a.isDigit && (b == ':')) = true then
          (match matchMS (c :: rest) with
            | some m2 => some (a :: b :: m2)
            | none => matchMS (a :: b :: c :: rest))
        else matchMS (a :: b :: c :: rest)) = some m := h
    split_ifs at h3 with h1 h2
    · cases hms : matchMS rest with
      | some m2 =>
        rcases band_split h1 with ⟨h1a, hcc⟩
        rcases band_split h1a with ⟨_, hdb⟩
        match rest, hms with
        | d :: r2, hms =>
          have hdd := matchMS_head_digit d r2 m2 hms
          have : hasDigitColonDigit (b :: c :: d :: r2) = true := by
            simp [hasDigitColonDigit, hdb, hcc, hdd]
          exact hasDigitColonDigit_tail a _ this
      | none =>
        rw [hms] at h3
        exact matchMS_hasDCD _ m h3
    · cases hms : matchMS (c :: rest) with
      | some m2 =>
        rcases band_split h2 with ⟨hda, hbc⟩
        have hdc := matchMS_head_digit c rest m2 hms
        simp [hasDigitColonDigit, hda, hbc, hdc]
      | none =>
        rw [hms] at h3
        exact matchMS_hasDCD _ m h3
    · exact matchMS_hasDCD _ m h3

theorem search_hasDCD (s m : List Char) (h : searchTimestamp s = some m) :
    hasDigitColonDigit s = true := by
  induction s with
  | nil => exact Option.noConfusion h
  | cons a rest ih =>
    rw [searchTimestamp] at h
    cases hm : matchTimestampAt (a :: rest) with
    | some m2 => exact matchTimestampAt_hasDCD _ _ hm
    | none =>
      rw [hm] at h
      exact hasDigitColonDigit_tail a rest (ih h)

/-- A stable sort's output is determined: a list sorted by non-decreasing
timestamp key that is a permutation of a list with strictly increasing keys
equals that list. -/
theorem sorted_perm_eq :
    ∀ (s2 s1 : List Row), List.Perm s1 s2 →
      s1.Pairwise (fun a b => tsKey a ≤ tsKey b) →
      s2.Pairwise (fun a b => tsKey a < tsKey b) →
      s1 = s2 := by
  intro s2
  induction s2 with
  | nil =>
    intro s1 hp _ _
    exact hp.eq_nil
  | cons x s2' ih =>
    intro s1 hp hs1 hs2
    cases s1 with
    | nil => exact absurd hp.symm.eq_nil (by simp)
    | cons y t1 =>
      rcases List.pairwise_cons.mp hs1 with ⟨hy, ht1⟩
      rcases List.pairwise_cons.mp hs2 with ⟨hx, hs2'⟩
      have hyx : y = x := by
        have hymem : y ∈ x :: s2' := hp.mem_iff.mp (by simp)
        have hxmem : x ∈ y :: t1 := hp.mem_iff.mpr (by simp)
        rcases List.mem_cons.mp hymem with h1 | h1
        · exact h1
        · rcases List.mem_cons.mp hxmem with h2 | h2
          · exact h2.symm
          · have hlt := hx y h1
            have hle := hy x h2
            omega
      subst hyx
      rw [ih t1 hp.cons_inv ht1 hs2']

/-! ## Concrete inputs used by the claims -/

def cA0 : Comment := mkComment ("at 0:00".toList) 3
def cA4 : Comment := mkComment ("at 0:04".toList) 1
def cA8 : Comment := mkComment ("at 0:08".toList) 2
def cA12 : Comment := mkComment ("at 0:12".toList) 5

def rA0 : Row := setTimestamp cA0
def rA4 : Row := setTimestamp cA4
def rA8 : Row := setTimestamp cA8
def rA12 : Row := setTimestamp cA12

/-- The timeline the code actually builds from offsets 0, 4, 8, 12. -/
def expectedA : Timeline :=
  [(0, { comments := [rA0, rA4], total_likes := 4, representative_time := 0 }),
   (8, { comments := [rA12, rA8], total_likes := 7, representative_time := 8 })]

def cB0 : Comment := mkComment ("0:00 wow".toList) 2
def cB4 : Comment := mkComment ("0:04 nice".toList) 7
def cB11 : Comment := mkComment ("0:11 lol".toList) 1
def cB5 : Comment := mkComment ("0:05".toList) 4

def rB0 : Row := setTimestamp cB0
def rB4 : Row := setTimestamp cB4
def rB11 : Row := setTimestamp cB11
def rB5 : Row := setTimestamp cB5

/-! ## The claims -/

/-- Claim C1, counterexample: four comments whose extracted offsets are
0, 4, 8 and 12 do NOT land in a single Moment.  Offset 8 differs from the
anchor 0 by 8 > 5, so a new cluster opens at 8 and the aggregate returns two
Moments (keyed 0 and 8), not one. -/
theorem C1_counterexample :
    (addTimestamps [cA0, cA4, cA8, cA12]).map (fun r => r.timestamp) =
      [some 0, some 4, some 8, some 12] ∧
    aggregate_timeline_comments (addTimestamps [cA0, cA4, cA8, cA12]) =
      expectedA ∧
    (aggregate_timeline_comments (addTimestamps [cA0, cA4, cA8, cA12])).length
      ≠ 1 :=
  ⟨by decide, by decide, by decide⟩

/-- Claim C1, amended: for every input of four timestamped comments whose
extracted offsets are 0, 4, 8 and 12 — arbitrary texts, authors and like
counts, in any arrival order — the aggregate returns exactly two Moments:
one keyed 0 holding the offset-0 and offset-4 comments (stably sorted by
descending likeCount, likes summed) and one keyed 8 holding the offset-8 and
offset-12 comments, because the walk compares each incoming offset against
the cluster-opening anchor, not the previous offset. -/
theorem C1_two_moments_amended (l : List Comment) (e0 e4 e8 e12 : Comment)
    (hperm : List.Perm l [e0, e4, e8, e12])
    (h0 : parse_timestamp e0.text = some 0)
    (h4 : parse_timestamp e4.text = some 4)
    (h8 : parse_timestamp e8.text = some 8)
    (h12 : parse_timestamp e12.text = some 12) :
    aggregate_timeline_comments (addTimestamps l) =
      [(0, { comments := sortByLikesDesc [setTimestamp e0, setTimestamp e4],
             total_likes := e0.likeCount + e4.likeCount,
             representative_time := 0 }),
       (8, { comments := sortByLikesDesc [setTimestamp e8, setTimestamp e12],
             total_likes := e8.likeCount + e12.likeCount,
             representative_time := 8 })] := by
  have hl : List.Perm (addTimestamps l)
      [setTimestamp e0, setTimestamp e4, setTimestamp e8, setTimestamp e12] :=
    hperm.map setTimestamp
  have htk0 : tsKey (setTimestamp e0) = 0 := by simp [tsKey, setTimestamp, h0]
  have htk4 : tsKey (setTimestamp e4) = 4 := by simp [tsKey, setTimestamp, h4]
  have htk8 : tsKey (setTimestamp e8) = 8 := by simp [tsKey, setTimestamp, h8]
  have htk12 : tsKey (setTimestamp e12) = 12 := by
    simp [tsKey, setTimestamp, h12]
  have hfilter : (addTimestamps l).filter (fun r => r.timestamp.isSome) =
      addTimestamps l := by
    rw [List.filter_eq_self]
    intro x hx
    have hmem := hl.mem_iff.mp hx
    simp only [List.mem_cons, List.not_mem_nil, or_false] at hmem
    rcases hmem with rfl | rfl | rfl | rfl <;>
      simp [setTimestamp, h0, h4, h8, h12]
  have hlen : (addTimestamps l).length = 4 := by
    rw [hl.length_eq]
    rfl
  have htarget : ([setTimestamp e0, setTimestamp e4, setTimestamp e8,
      setTimestamp e12] : List Row).Pairwise
        (fun a b => tsKey a < tsKey b) := by
    refine List.pairwise_cons.mpr ⟨?_, List.pairwise_cons.mpr ⟨?_,
      List.pairwise_cons.mpr ⟨?_, List.pairwise_singleton _ _⟩⟩⟩ <;>
      intro b hb <;>
      simp only [List.mem_cons, List.not_mem_nil, or_false] at hb
    · rcases hb with rfl | rfl | rfl <;> omega
    · rcases hb with rfl | rfl <;> omega
    · rcases hb with rfl
      omega
  have hsort : sortByTs (addTimestamps l) =
      [setTimestamp e0, setTimestamp e4, setTimestamp e8,
        setTimestamp e12] :=
    sorted_perm_eq _ _ ((sortByTs_perm _).trans hl) (sortByTs_sorted _)
      htarget
  rw [show aggregate_timeline_comments (addTimestamps l) =
    walk sortByLikesDesc (sortByTs (addTimestamps l)) none [] by
      simp [aggregate_timeline_comments, aggregateWith, hfilter, hlen]]
  rw [hsort]
  have hlc : ∀ c : Comment, (setTimestamp c).likeCount = c.likeCount :=
    fun c => rfl
  simp [walk, stepAnchor, updateTimeline, updateMoment, emptyMoment, absDiff,
    htk0, htk4, htk8, htk12, sortByLikesDesc_absorb, hlc]

theorem C1_witness :
    aggregate_timeline_comments (addTimestamps [cA12, cA0, cA8, cA4]) =
      [(0, { comments := sortByLikesDesc [rA0, rA4],
             total_likes := cA0.likeCount + cA4.likeCount,
             representative_time := 0 }),
       (8, { comments := sortByLikesDesc [rA8, rA12],
             total_likes := cA8.likeCount + cA12.likeCount,
             representative_time := 8 })] :=
  C1_two_moments_amended [cA12, cA0, cA8, cA4] cA0 cA4 cA8 cA12
    (by decide) (by decide) (by decide) (by decide) (by decide)

/-- Claim C2, counterexample: the das-mainpage.py aggregate never re-sorts a
Moment's members, so a cluster whose offsets arrive with ascending like
counts keeps them in ascending — not descending — order. -/
theorem C2_counterexample :
    aggregate_mainpage (addTimestamps [cB0, cB5]) =
      [(0, { comments := [rB0, rB5], total_likes := 6,
             representative_time := 0 })] ∧
    rB0.likeCount < rB5.likeCount ∧
    ¬ ∀ p ∈ aggregate_mainpage (addTimestamps [cB0, cB5]),
        p.2.comments.Pairwise (fun a b => b.likeCount ≤ a.likeCount) :=
  ⟨by decide, by decide, by decide⟩

/-- Claim C2, amended: in src/das.py every Moment's members are sorted by
descending likeCount, stably — the member list equals the stable descending
sort of the corresponding src/das-mainpage.py member list (which is the raw
insertion order), and members of any fixed likeCount keep their relative
insertion order; src/das-mainpage.py leaves members in ascending-offset
insertion order instead. -/
theorem C2_sorted_amended (df : List Row) :
    List.Forall₂ MomentRel (aggregate_timeline_comments df)
      (aggregate_mainpage df) ∧
    (∀ p ∈ aggregate_timeline_comments df,
      p.2.comments.Pairwise (fun a b => b.likeCount ≤ a.likeCount)) ∧
    (∀ v : Nat, List.Forall₂ (fun p q =>
        p.2.comments.filter (fun y => y.likeCount == v) =
          q.2.comments.filter (fun y => y.likeCount == v))
      (aggregate_timeline_comments df) (aggregate_mainpage df)) := by
  refine ⟨aggregate_rel df, ?_, ?_⟩
  · intro p hp
    rcases forall₂_mem_left (aggregate_rel df) p hp with ⟨q, _, hcom, _, _⟩
    rw [hcom]
    exact sortByLikesDesc_sorted q.2.comments
  · intro v
    exact List.Forall₂.imp
      (fun p q hpq => by rw [hpq.2.1, sortByLikesDesc_filter])
      (aggregate_rel df)

theorem C2_witness :
    ({ comments := [rB5, rB0], total_likes := 6,
        representative_time := 0 } : Moment).comments.Pairwise
      (fun a b => b.likeCount ≤ a.likeCount) :=
  (C2_sorted_amended (addTimestamps [cB0, cB5])).2.1
    (0, { comments := [rB5, rB0], total_likes := 6,
          representative_time := 0 })
    (by decide)

/-- Claim C3: a new cluster opens exactly when the incoming offset differs
from the anchor by strictly more than 5 (a difference of exactly 5 joins);
offsets [0, 4, 11] give two Moments — keyed 0 with the offset-0/offset-4
members and keyed 11 with the offset-11 member — and offsets [0, 5] stay in
one Moment keyed 0. -/
theorem C3_threshold :
    (∀ a t : Nat, absDiff t a ≤ 5 → stepAnchor (some a) t = a) ∧
    (∀ a t : Nat, 5 < absDiff t a → stepAnchor (some a) t = t) ∧
    aggregate_timeline_comments (addTimestamps [cB0, cB4, cB11]) =
      [(0, { comments := [rB4, rB0], total_likes := 9,
             representative_time := 0 }),
       (11, { comments := [rB11], total_likes := 1,
              representative_time := 11 })] ∧
    aggregate_timeline_comments (addTimestamps [cB0, cB5]) =
      [(0, { comments := [rB5, rB0], total_likes := 6,
             representative_time := 0 })] := by
  refine ⟨?_, ?_, by decide, by decide⟩
  · intro a t h
    have h2 : ¬ 5 < absDiff t a := by omega
    simp [stepAnchor, h2]
  · intro a t h
    simp [stepAnchor, h]

theorem C3_witness :
    stepAnchor (some 3) 8 = 3 ∧ stepAnchor (some 0) 6 = 6 :=
  ⟨C3_threshold.1 3 8 (by decide), C3_threshold.2.1 0 6 (by decide)⟩

/-- Claim C4: whenever the search matches, `parse_timestamp` returns the
spec's conversion of the matched colon-separated fields (minutes*60+seconds
for two fields, hours*3600+minutes*60+seconds for three); in particular
"great scene at 1:05:30" extracts 3930 and "lol at 2:15" extracts 135. -/
theorem C4_extraction :
    (∀ s m : List Char, searchTimestamp s = some m →
      parse_timestamp s = some (specTimestampValue (splitColon m))) ∧
    parse_timestamp ("great scene at 1:05:30".toList) = some 3930 ∧
    parse_timestamp ("lol at 2:15".toList) = some 135 :=
  ⟨parse_timestamp_refines, by decide, by decide⟩

theorem C4_witness :
    parse_timestamp ("lol at 2:15".toList) =
      some (specTimestampValue (splitColon ("2:15".toList))) :=
  C4_extraction.1 ("lol at 2:15".toList) ("2:15".toList) (by decide)

/-- Claim C5: the top-N view (of either file) lists at most 10 Moments, in
descending totalLikes order with ties broken by ascending
representativeTime. -/
theorem C5_topN_order (df : List Row) :
    ((topMoments (aggregate_timeline_comments df)).length ≤ 10 ∧
      (topMoments (aggregate_timeline_comments df)).Pairwise DisplayOrder) ∧
    ((topMoments (aggregate_mainpage df)).length ≤ 10 ∧
      (topMoments (aggregate_mainpage df)).Pairwise DisplayOrder) := by
  unfold aggregate_timeline_comments aggregate_mainpage
  exact ⟨topMoments_ordered _ (aggregateWith_keys sortByLikesDesc df)
      (aggregateWith_rep sortByLikesDesc df),
    topMoments_ordered _ (aggregateWith_keys (fun l => l) df)
      (aggregateWith_rep (fun l => l) df)⟩

/-- Claim C6: in either aggregate's output, every member's extracted offset
is within 5 seconds of its Moment's key. -/
theorem C6_members_within_tolerance (df : List Row) :
    (∀ p ∈ aggregate_timeline_comments df, ∀ x ∈ p.2.comments,
      absDiff (tsKey x) p.1 ≤ 5) ∧
    (∀ p ∈ aggregate_mainpage df, ∀ x ∈ p.2.comments,
      absDiff (tsKey x) p.1 ≤ 5) :=
  ⟨aggregateWith_close sortByLikesDesc sortByLikesDesc_perm df,
   aggregateWith_close (fun l => l) (fun l => List.Perm.refl l) df⟩

theorem C6_witness : absDiff (tsKey rB5) 0 ≤ 5 :=
  (C6_members_within_tolerance (addTimestamps [cB0, cB5])).1
    (0, { comments := [rB5, rB0], total_likes := 6,
          representative_time := 0 }) (by decide) rB5 (by decide)

/-- Claim C7: each aggregate's Moments partition exactly the timestamped
rows — the concatenation of all member lists is a permutation of the
timestamp-filtered input (so each timestamped row appears exactly once
across all Moments), its size is the count of timestamped rows, and every
member has a present timestamp. -/
theorem C7_partition (df : List Row) :
    (List.Perm (joinComments (aggregate_timeline_comments df))
        (df.filter (fun r => r.timestamp.isSome)) ∧
      (joinComments (aggregate_timeline_comments df)).length =
        df.countP (fun r => r.timestamp.isSome) ∧
      ∀ p ∈ aggregate_timeline_comments df, ∀ x ∈ p.2.comments,
        x.timestamp.isSome = true) ∧
    (List.Perm (joinComments (aggregate_mainpage df))
        (df.filter (fun r => r.timestamp.isSome)) ∧
      (joinComments (aggregate_mainpage df)).length =
        df.countP (fun r => r.timestamp.isSome) ∧
      ∀ p ∈ aggregate_mainpage df, ∀ x ∈ p.2.comments,
        x.timestamp.isSome = true) := by
  have main : ∀ (g : List Row → List Row), (∀ l, List.Perm (g l) l) →
      List.Perm (joinComments (aggregateWith g df))
        (df.filter (fun r => r.timestamp.isSome)) ∧
      (joinComments (aggregateWith g df)).length =
        df.countP (fun r => r.timestamp.isSome) ∧
      ∀ p ∈ aggregateWith g df, ∀ x ∈ p.2.comments,
        x.timestamp.isSome = true := by
    intro g hg
    have hperm := aggregateWith_join g hg df
    refine ⟨hperm, ?_, ?_⟩
    · rw [hperm.length_eq, ← List.countP_eq_length_filter]
    · intro p hp x hx
      have hj : x ∈ joinComments (aggregateWith g df) := by
        rw [joinComments]
        exact List.mem_flatten.mpr
          ⟨p.2.comments, List.mem_map.mpr ⟨p, hp, rfl⟩, hx⟩
      exact (List.mem_filter.mp (hperm.mem_iff.mp hj)).2
  exact ⟨main sortByLikesDesc sortByLikesDesc_perm,
    main (fun l => l) (fun l => List.Perm.refl l)⟩

theorem C7_witness : rB0.timestamp.isSome = true :=
  (C7_partition (addTimestamps [cB0, cB5])).1.2.2
    (0, { comments := [rB5, rB0], total_likes := 6,
          representative_time := 0 }) (by decide) rB0 (by decide)

/-- Claim C8: `parse_timestamp` is total (modelled as an `Option`-valued
function: the `try`/`except` means extraction failures are never fatal) and
returns the absent value whenever the search finds no match — in particular
on every text with no digit-colon-digit substring, such as
"no timestamp here". -/
theorem C8_absent_on_no_match :
    (∀ s : List Char, searchTimestamp s = none → parse_timestamp s = none) ∧
    (∀ s : List Char, hasDigitColonDigit s = false →
      parse_timestamp s = none) ∧
    parse_timestamp ("no timestamp here".toList) = none := by
  refine ⟨?_, ?_, by decide⟩
  · intro s h
    rw [parse_timestamp, h]
  · intro s h
    cases hsearch : searchTimestamp s with
    | none => rw [parse_timestamp, hsearch]
    | some m =>
      rw [search_hasDCD s m hsearch] at h
      exact Bool.noConfusion h

theorem C8_witness :
    parse_timestamp ("hello world".toList) = none ∧
    parse_timestamp ("a:b 12:c".toList) = none :=
  ⟨C8_absent_on_no_match.1 ("hello world".toList) (by decide),
   C8_absent_on_no_match.2.1 ("a:b 12:c".toList) (by decide)⟩

/-- Claim C9: when no row carries a timestamp — including the empty input —
both aggregates return the empty mapping. -/
theorem C9_empty_input (df : List Row) (h : ∀ r ∈ df, r.timestamp = none) :
    aggregate_timeline_comments df = [] ∧ aggregate_mainpage df = [] :=
  ⟨aggregateWith_empty sortByLikesDesc df h,
   aggregateWith_empty (fun l => l) df h⟩

theorem C9_witness :
    aggregate_timeline_comments (addTimestamps [mkComment ("hi".toList) 3])
        = [] ∧
      aggregate_mainpage (addTimestamps [mkComment ("hi".toList) 3]) = [] :=
  C9_empty_input (addTimestamps [mkComment ("hi".toList) 3]) (by decide)

/-- Claim C10: `parse_timestamp` performs no range validation — a matched
field of 60 or more still produces the arithmetic value (a text whose
leftmost match is "90:99" yields 90*60+99 = 5499), and every successful
search produces a present result, never a rejection. -/
theorem C10_no_range_validation :
    parse_timestamp ("90:99".toList) = some 5499 ∧
    parse_timestamp ("see 90:99".toList) = some 5499 ∧
    (∀ s m : List Char, searchTimestamp s = some m →
      (parse_timestamp s).isSome = true) := by
  refine ⟨by decide, by decide, ?_⟩
  intro s m h
  rw [parse_timestamp_refines s m h]
  rfl

theorem C10_witness : (parse_timestamp ("90:99".toList)).isSome = true :=
  C10_no_range_validation.2.2 ("90:99".toList) ("90:99".toList) (by decide)

end Das
